import Mathlib

/-!
# Verification of the textract-chunking repository

Shallow embedding of the two parsers of the repository:

* `src/chunk.py` — `parse_textract_layout_to_chunks`: turns a flat list of
  Textract blocks into table chunks (Step A), layout-text chunks (Step B)
  or fallback line chunks (Step C).
* `src/docx_parser.py` — `parse_docx_to_chunks`: turns an ordered list of
  paragraphs/tables into chunks.

Modelling conventions:
* A Python dict access `d[k]` that can raise `KeyError`, and the
  `[...][0]` indexing that can raise `IndexError`, are modelled in the
  `Except String` monad with error strings `"KeyError"` / `"IndexError"`.
* The `Text` key is modelled as a total `String` field (the source only
  reads `Text` on WORD/LINE blocks, which always carry it; absent keys are
  modelled as `""`).
* `Geometry.BoundingBox.Top` and `Page` are modelled as optional fields;
  reading a missing `Top` raises, a missing `Page` is read with `.get`.
* Floating point positions and the 0.5/0.05 thresholds are modelled as
  rationals (both thresholds are exactly representable comparisons).
* Textract row/column indices are 1-based; grid placement uses `List.set`
  (out-of-range writes are no-ops), which coincides with the source on all
  inputs whose indices are ≥ 1 — the only inputs the theorems below use.
-/

/-- A typed child-reference list of a block (`{'Type': …, 'Ids': […]}`). -/
structure TRel where
  type : String
  ids : List String
deriving Repr, DecidableEq

/-- A Textract block (`{'Id', 'BlockType', 'Text', 'RowIndex', 'ColumnIndex',
'RowSpan', 'ColumnSpan', 'Page', 'Geometry.BoundingBox.Top', 'Relationships'}`).
Optional JSON keys are `Option`-valued; `text` defaults to `""` where absent. -/
structure Block where
  id : String
  blockType : String
  text : String := ""
  rowIndex : Option Nat := none
  columnIndex : Option Nat := none
  rowSpan : Option Nat := none
  columnSpan : Option Nat := none
  page : Option Nat := none
  top : Option ℚ := none
  relationships : Option (List TRel) := none
deriving Repr, DecidableEq

/-- Chunk metadata (`{'document_id', 'page', 'type'}`); the DOCX parser emits
no page, hence `Option`. -/
structure ChunkMeta where
  document_id : String
  page : Option Nat
  type : String
deriving Repr, DecidableEq

/-- One output chunk (`{'text': …, 'metadata': …}`). -/
structure Chunk where
  text : String
  metadata : ChunkMeta
deriving Repr, DecidableEq

/-- Lookup in `block_map = {b['Id']: b for b in blocks}`: a Python dict
comprehension lets later entries overwrite earlier ones, so the lookup
returns the **last** block carrying the identifier. -/
def blockMapGet (blocks : List Block) (i : String) : Option Block :=
  (blocks.filter (fun b => b.id == i)).getLast?

/-- `consumed_word_ids.add wid` (`set` semantics: no duplicates). -/
def setAdd (s : List String) (x : String) : List String :=
  if x ∈ s then s else s ++ [x]

/-- `s.lower()` over the character data (total counterpart of the
well-founded `String.map`; the labels involved are ASCII). -/
def pyLower (s : String) : String := ⟨s.data.map Char.toLower⟩

/-- `s.strip()`: drop whitespace from both ends of the string. -/
def pyStrip (s : String) : String :=
  ⟨((s.data.dropWhile Char.isWhitespace).reverse.dropWhile Char.isWhitespace).reverse⟩

/-! ## Step A — table extraction (`chunk.py` lines 28–71) -/

/-- One resolved cell: `{'r': RowIndex, 'c': ColumnIndex, 'text': …}`. -/
structure CellData where
  r : Nat
  c : Nat
  text : String
deriving Repr, DecidableEq

/-- Inner word loop of a cell (lines 42–45): `block_map[wid]` raises on a
missing id; a WORD contributes its text and is recorded as consumed. -/
def wordStep (blocks : List Block) (st : List String × List String) (wid : String) :
    Except String (List String × List String) :=
  match blockMapGet blocks wid with
  | none => .error "KeyError"
  | some w =>
    if w.blockType == "WORD" then .ok (st.1 ++ [w.text], setAdd st.2 wid)
    else .ok st

/-- `for wid in rel['Ids']` (line 42). -/
def widsFold (blocks : List Block) :
    List String × List String → List String → Except String (List String × List String)
  | st, [] => .ok st
  | st, w :: ws =>
    match wordStep blocks st w with
    | .error e => .error e
    | .ok st' => widsFold blocks st' ws

/-- `for rel in cell['Relationships']: if rel['Type'] == 'CHILD'` (lines 40–41). -/
def cellRelsFold (blocks : List Block) :
    List String × List String → List TRel → Except String (List String × List String)
  | st, [] => .ok st
  | st, rel :: rels =>
    if rel.type == "CHILD" then
      match widsFold blocks st rel.ids with
      | .error e => .error e
      | .ok st' => cellRelsFold blocks st' rels
    else cellRelsFold blocks st rels

/-- Per-cell body (lines 36–51): resolve the cell block, gather its word
texts, then read `RowIndex`/`ColumnIndex` (raising when absent). -/
def cellStep (blocks : List Block) (st : List CellData × List String) (cellId : String) :
    Except String (List CellData × List String) :=
  match blockMapGet blocks cellId with
  | none => .error "KeyError"
  | some cell =>
    match (match cell.relationships with
           | none => Except.ok ([], st.2)
           | some rels => cellRelsFold blocks ([], st.2) rels) with
    | .error e => .error e
    | .ok (ws, consumed) =>
      match cell.rowIndex, cell.columnIndex with
      | some r, some c => .ok (st.1 ++ [⟨r, c, String.intercalate " " ws⟩], consumed)
      | _, _ => .error "KeyError"

/-- `for cell_id in cell_ids` (line 36). -/
def cellsFold (blocks : List Block) :
    List CellData × List String → List String → Except String (List CellData × List String)
  | st, [] => .ok st
  | st, cid :: cids =>
    match cellStep blocks st cid with
    | .error e => .error e
    | .ok st' => cellsFold blocks st' cids

/-- `max(c['r'] for c in cells_data)` (only used on non-empty lists, where
the 0 seed is absorbed). -/
def maxRowOf (cd : List CellData) : Nat := cd.foldl (fun m c => max m c.r) 0

/-- `max(c['c'] for c in cells_data)`. -/
def maxColOf (cd : List CellData) : Nat := cd.foldl (fun m c => max m c.c) 0

/-- `[['' for _ in range(max_col)] for _ in range(max_row)]` (line 58). -/
def emptyGrid (rows cols : Nat) : List (List String) :=
  List.replicate rows (List.replicate cols "")

/-- `grid[c['r']-1][c['c']-1] = c['text']` (line 59). -/
def gridPlace (g : List (List String)) (cd : CellData) : List (List String) :=
  g.set (cd.r - 1) ((g.getD (cd.r - 1) []).set (cd.c - 1) cd.text)

/-- `for c in cells_data: grid[…] = c['text']`. -/
def fillGrid (g : List (List String)) (cds : List CellData) : List (List String) :=
  cds.foldl gridPlace g

/-- `"| " + " | ".join(cells) + " |"`. -/
def mdRow (cells : List String) : String :=
  "| " ++ String.intercalate " | " cells ++ " |"

/-- Markdown rendering of a table grid (lines 61–62): header row, a
`---`-filler separator of `max_col` cells, then the remaining rows. -/
def tableMD (grid : List (List String)) (maxCol : Nat) : String :=
  String.intercalate "\n"
    (mdRow (grid.headD []) :: mdRow (List.replicate maxCol "---") :: (grid.drop 1).map mdRow)

/-- Per-block body of Step A (lines 29–71). A non-TABLE block is skipped;
a TABLE without `Relationships` is skipped; `[rel['Ids'] for rel in …
if rel['Type'] == 'CHILD'][0]` raises `IndexError` when no CHILD entry
exists; a table with zero resolved cells emits nothing. -/
def tableStep (blocks : List Block) (d : String) (acc : List Chunk × List String)
    (b : Block) : Except String (List Chunk × List String) :=
  if b.blockType == "TABLE" then
    match b.relationships with
    | none => .ok acc
    | some rels =>
      match (rels.filter (fun r => r.type == "CHILD")).map (fun r => r.ids) with
      | [] => .error "IndexError"
      | cellIds :: _ =>
        match cellsFold blocks ([], acc.2) cellIds with
        | .error e => .error e
        | .ok (cellsData, consumed) =>
          if cellsData.isEmpty then .ok (acc.1, consumed)
          else
            let mr := maxRowOf cellsData
            let mc := maxColOf cellsData
            let grid := fillGrid (emptyGrid mr mc) cellsData
            .ok (acc.1 ++ [⟨tableMD grid mc, ⟨d, some (b.page.getD 1), "table"⟩⟩], consumed)
  else .ok acc

/-- `for block in blocks` of Step A. -/
def stepAFold (blocks : List Block) (d : String) :
    List Chunk × List String → List Block → Except String (List Chunk × List String)
  | acc, [] => .ok acc
  | acc, b :: bs =>
    match tableStep blocks d acc b with
    | .error e => .error e
    | .ok acc' => stepAFold blocks d acc' bs

/-- Step A over the whole collection, starting from no chunks and an empty
Consumption Set. -/
def stepA (blocks : List Block) (d : String) : Except String (List Chunk × List String) :=
  stepAFold blocks d ([], []) blocks

/-! ## Step B — layout-text extraction (`chunk.py` lines 73–116) -/

/-- `layout_content_types` (line 74). -/
def layoutContentTypes : List String :=
  ["LAYOUT_TITLE", "LAYOUT_HEADER", "LAYOUT_SECTION_HEADER", "LAYOUT_TEXT", "LAYOUT_LIST"]

/-- `layout_blocks = [b for b in blocks if b['BlockType'] in layout_content_types]`. -/
def layoutBlocksOf (blocks : List Block) : List Block :=
  blocks.filter (fun b => b.blockType ∈ layoutContentTypes)

/-- Resolve a layout block's LINE children (lines 79–86); absent ids are
skipped via `block_map.get`. -/
def blockLines (blocks : List Block) (b : Block) : List Block :=
  match b.relationships with
  | none => []
  | some rels =>
    rels.foldl (fun acc rel =>
      if rel.type == "CHILD" then
        acc ++ rel.ids.filterMap (fun cid =>
          match blockMapGet blocks cid with
          | some child => if child.blockType == "LINE" then some child else none
          | none => none)
      else acc) []

/-- Running counters of the word loop (lines 88–90): total leaves seen,
leaves found in the Consumption Set, and the collected text parts. -/
structure WStats where
  total : Nat
  consumedCount : Nat
  parts : List String
deriving Repr, DecidableEq

/-- One leaf id (lines 96–101): count it; a consumed id is counted and
dropped; otherwise a resolvable id contributes its text. -/
def wordTally (blocks : List Block) (consumed : List String) (st : WStats) (wid : String) :
    WStats :=
  let st := { st with total := st.total + 1 }
  if wid ∈ consumed then { st with consumedCount := st.consumedCount + 1 }
  else
    match blockMapGet blocks wid with
    | some w => { st with parts := st.parts ++ [w.text] }
    | none => st

/-- `for rel in line['Relationships']: if CHILD: for wid in rel['Ids']`
(lines 93–96). -/
def lineTally (blocks : List Block) (consumed : List String) (st : WStats) (line : Block) :
    WStats :=
  match line.relationships with
  | none => st
  | some rels =>
    rels.foldl (fun st rel =>
      if rel.type == "CHILD" then rel.ids.foldl (wordTally blocks consumed) st else st) st

/-- Leaf statistics of one layout block (lines 88–101). -/
def blockStats (blocks : List Block) (consumed : List String) (b : Block) : WStats :=
  (blockLines blocks b).foldl (lineTally blocks consumed) ⟨0, 0, []⟩

/-- Per-block body of Step B (lines 88–116): suppress the block when more
than half of its leaves are consumed (lines 103–105), else emit a chunk
when the joined text is non-blank (lines 107–116). -/
def extractOne (blocks : List Block) (consumed : List String) (d : String) (b : Block) :
    Option Chunk :=
  let st := blockStats blocks consumed b
  if st.total > 0 ∧ (st.consumedCount : ℚ) / (st.total : ℚ) > 0.5 then none
  else
    let fullText := String.intercalate " " st.parts
    if pyStrip fullText ≠ "" then
      some ⟨fullText, ⟨d, some (b.page.getD 1), pyLower b.blockType⟩⟩
    else none

/-- Step B: one optional chunk per layout block, in source order. -/
def stepB (blocks : List Block) (consumed : List String) (d : String) : List Chunk :=
  (layoutBlocksOf blocks).filterMap (extractOne blocks consumed d)

/-! ## Step C — fallback raw-line segmentation (`chunk.py` lines 118–146) -/

/-- Loop state of Step C: `current_text`, `last_top`, `current_page`, and
the chunks appended so far. -/
structure FState where
  currentText : List String
  lastTop : ℚ
  currentPage : Nat
  chunks : List Chunk
deriving Repr, DecidableEq

/-- Deduplication test (lines 127–130): a line is skipped when more than
half of its relationship ids are in the Consumption Set.  Ids of **all**
relationship entries are gathered, not only CHILD ones. -/
def lineSkipped (consumed : List String) (b : Block) : Bool :=
  match b.relationships with
  | none => false
  | some rels =>
    let wids := rels.foldl (fun acc rel => acc ++ rel.ids) []
    decide (2 * wids.countP (fun w => consumed.contains w) > wids.length)

/-- Flush of the accumulator (lines 135–138 and 146). -/
def flushChunk (d : String) (st : FState) : Chunk :=
  ⟨String.intercalate " " st.currentText, ⟨d, some st.currentPage, "text_block"⟩⟩

/-- Per-block body of Step C (lines 124–143): only LINE blocks are
considered; reading a missing `Geometry…Top` raises; the paragraph-break
test flushes on a >0.05 vertical gap or on `block.get('Page') !=
current_page` (note: an absent page never equals the current page). -/
def lineStep (consumed : List String) (d : String) (st : FState) (b : Block) :
    Except String FState :=
  if b.blockType == "LINE" then
    if lineSkipped consumed b then .ok st
    else
      match b.top with
      | none => .error "KeyError"
      | some top =>
        let st' :=
          if st.currentText ≠ [] ∧ (|top - st.lastTop| > 0.05 ∨ b.page ≠ some st.currentPage)
          then { st with chunks := st.chunks ++ [flushChunk d st], currentText := [] }
          else st
        .ok { st' with currentText := st'.currentText ++ [b.text],
                       lastTop := top, currentPage := b.page.getD 1 }
  else .ok st

/-- `for block in blocks` of Step C. -/
def stepCFold (consumed : List String) (d : String) :
    FState → List Block → Except String FState
  | st, [] => .ok st
  | st, b :: bs =>
    match lineStep consumed d st b with
    | .error e => .error e
    | .ok st' => stepCFold consumed d st' bs

/-- Final flush after the loop (lines 145–146). -/
def stepCFinish (d : String) (st : FState) : List Chunk :=
  if st.currentText ≠ [] then st.chunks ++ [flushChunk d st] else st.chunks

/-- Step C over the whole collection, starting from an empty accumulator,
`last_top = 0` and `current_page = 1`. -/
def stepC (blocks : List Block) (consumed : List String) (d : String) :
    Except String (List Chunk) :=
  match stepCFold consumed d ⟨[], 0, 1, []⟩ blocks with
  | .error e => .error e
  | .ok st => .ok (stepCFinish d st)

/-- `parse_textract_layout_to_chunks` (`chunk.py` lines 17–148): tables
first, then layout text when any layout-labeled block exists, else the
fallback segmenter. -/
def parse_textract_layout_to_chunks (blocks : List Block) (documentId : String) :
    Except String (List Chunk) :=
  match stepA blocks documentId with
  | .error e => .error e
  | .ok (tableChunks, consumed) =>
    if layoutBlocksOf blocks ≠ [] then
      .ok (tableChunks ++ stepB blocks consumed documentId)
    else
      match stepC blocks consumed documentId with
      | .error e => .error e
      | .ok textChunks => .ok (tableChunks ++ textChunks)

/-! ## The DOCX parser (`src/docx_parser.py`) -/

/-- A block-level DOCX element, in document order: a paragraph's text or a
table's rows of raw cell strings. -/
inductive DocxBlock where
  | para (text : String)
  | table (rows : List (List String))
deriving Repr, DecidableEq

/-- `cell.text.strip().replace('\n', ' ')` (line 73); the single-character
replacement is a character map. -/
def docxCellText (s : String) : String :=
  ⟨(pyStrip s).data.map (fun c => if c = '\n' then ' ' else c)⟩

/-- `max(len(r) for r in grid_data)` (0-seeded fold; the source only calls
it on non-empty grids, where the seed is absorbed). -/
def maxColsOf (grid : List (List String)) : Nat :=
  grid.foldl (fun m r => max m r.length) 0

/-- `r + [''] * (max_cols - len(r))` (lines 85, 91). -/
def padTo (w : Nat) (r : List String) : List String :=
  r ++ List.replicate (w - r.length) ""

/-- The rendered cell rows of a DOCX table (lines 83–92): padded header,
`---`-filler separator, padded body rows. -/
def docxTableCells (grid : List (List String)) : List (List String) :=
  let w := maxColsOf grid
  padTo w (grid.headD []) :: List.replicate w "---" :: (grid.drop 1).map (padTo w)

/-- `"\n".join(md_lines)` over the rendered rows. -/
def docxTableMD (grid : List (List String)) : String :=
  String.intercalate "\n" ((docxTableCells grid).map mdRow)

/-- Chunks of one DOCX block (lines 44–100): a non-blank paragraph emits a
text chunk; a table with at least one row emits a table chunk; DOCX chunks
carry no page. -/
def docxBlockChunks (d : String) : DocxBlock → List Chunk
  | .para t =>
    let text := pyStrip t
    if text ≠ "" then [⟨text, ⟨d, none, "text_block"⟩⟩] else []
  | .table rows =>
    match rows with
    | [] => []
    | _ =>
      let grid := rows.map (fun row => row.map docxCellText)
      [⟨docxTableMD grid, ⟨d, none, "table"⟩⟩]

/-- `parse_docx_to_chunks` (`docx_parser.py` lines 3–102): chunks are
appended in document traversal order, paragraphs and tables interleaved. -/
def parse_docx_to_chunks (blocks : List DocxBlock) (d : String) : List Chunk :=
  blocks.foldl (fun cs b => cs ++ docxBlockChunks d b) []

deriving instance DecidableEq for Except

/-! ## Concrete inputs -/

/-- The three-cell merged-header table of `test_chunk_logic.py`: one TABLE,
cells (1,1) "Header" (with a column span), (2,1) "A", (2,2) "B". The column
span of the first cell is left as a parameter. -/
def c1Blocks (span : Option Nat) : List Block :=
  [ ⟨"table-1", "TABLE", "", none, none, none, none, none, none,
      some [⟨"CHILD", ["cell-1", "cell-2", "cell-3"]⟩]⟩,
    ⟨"cell-1", "CELL", "", some 1, some 1, some 1, span, none, none,
      some [⟨"CHILD", ["word-1"]⟩]⟩,
    ⟨"cell-2", "CELL", "", some 2, some 1, some 1, some 1, none, none,
      some [⟨"CHILD", ["word-2"]⟩]⟩,
    ⟨"cell-3", "CELL", "", some 2, some 2, some 1, some 1, none, none,
      some [⟨"CHILD", ["word-3"]⟩]⟩,
    ⟨"word-1", "WORD", "Header", none, none, none, none, none, none, none⟩,
    ⟨"word-2", "WORD", "A", none, none, none, none, none, none, none⟩,
    ⟨"word-3", "WORD", "B", none, none, none, none, none, none, none⟩ ]

/-- A layout-labeled block over one line with one word of text `" "`. -/
def c2Layout : Block :=
  ⟨"lb-1", "LAYOUT_TEXT", "", none, none, none, none, none, none,
    some [⟨"CHILD", ["line-1"]⟩]⟩

/-- A collection whose only layout block's single leaf has text `" "`: its
leaf ratio is 0, yet it emits no chunk (the joined text is blank). -/
def c2Blocks : List Block :=
  [ c2Layout,
    ⟨"line-1", "LINE", " ", none, none, none, none, none, some 0,
      some [⟨"CHILD", ["word-1"]⟩]⟩,
    ⟨"word-1", "WORD", " ", none, none, none, none, none, none, none⟩ ]

/-- A table that consumes the word `"SECRET"`, followed by a fallback LINE
whose text repeats that word: the line has only one of its two leaves
consumed, so it is retained whole. -/
def c3Blocks : List Block :=
  [ ⟨"t1", "TABLE", "", none, none, none, none, none, none,
      some [⟨"CHILD", ["c1"]⟩]⟩,
    ⟨"c1", "CELL", "", some 1, some 1, none, none, none, none,
      some [⟨"CHILD", ["w1"]⟩]⟩,
    ⟨"w1", "WORD", "SECRET", none, none, none, none, none, none, none⟩,
    ⟨"w2", "WORD", "other", none, none, none, none, none, none, none⟩,
    ⟨"l1", "LINE", "SECRET other", none, none, none, none, none, some 0,
      some [⟨"CHILD", ["w1", "w2"]⟩]⟩ ]

/-- Two WORD nodes sharing the identifier `"dup"`. -/
def c5DupBlocks : List Block :=
  [ ⟨"dup", "WORD", "OLD", none, none, none, none, none, none, none⟩,
    ⟨"dup", "WORD", "NEW", none, none, none, none, none, none, none⟩ ]

/-- A table whose cell references a word id carried by two nodes: the
index keeps the later node, so the rendered cell text is `"NEW"`. -/
def c5DupTableBlocks : List Block :=
  [ ⟨"t1", "TABLE", "", none, none, none, none, none, none,
      some [⟨"CHILD", ["c1"]⟩]⟩,
    ⟨"c1", "CELL", "", some 1, some 1, none, none, none, none,
      some [⟨"CHILD", ["w"]⟩]⟩,
    ⟨"w", "WORD", "OLD", none, none, none, none, none, none, none⟩,
    ⟨"w", "WORD", "NEW", none, none, none, none, none, none, none⟩ ]

/-- A table whose CHILD relationship references an identifier absent from
the collection. -/
def c5DanglingBlocks : List Block :=
  [ ⟨"t1", "TABLE", "", none, none, none, none, none, none,
      some [⟨"CHILD", ["ghost"]⟩]⟩ ]

/-- A LAYOUT_TITLE block over one line with one word. -/
def c8Layout : Block :=
  ⟨"lb-1", "LAYOUT_TITLE", "", none, none, none, none, none, none,
    some [⟨"CHILD", ["line-1"]⟩]⟩

/-- A collection whose only layout block is the LAYOUT_TITLE above. -/
def c8Blocks : List Block :=
  [ c8Layout,
    ⟨"line-1", "LINE", "Title", none, none, none, none, none, some 0,
      some [⟨"CHILD", ["word-1"]⟩]⟩,
    ⟨"word-1", "WORD", "Title", none, none, none, none, none, none, none⟩ ]

/-- A TABLE node whose relationship list holds only a MERGED_CELL entry
(no CHILD entry); every referenced identifier trivially resolves. -/
def c9Blocks : List Block :=
  [ ⟨"t1", "TABLE", "", none, none, none, none, none, none,
      some [⟨"MERGED_CELL", []⟩]⟩ ]

/-- A DOCX document whose paragraph precedes its table. -/
def c4DocxBlocks : List DocxBlock :=
  [ .para "P", .table [["a"]] ]

/-! ## Claims -/

/-- **C1** (confirmed). For the collection holding one TABLE whose three
CELL children sit at (1,1) "Header", (2,1) "A", (2,2) "B",
`parse_textract_layout_to_chunks` builds the 2×2 grid and emits one table
chunk whose text is exactly `"| Header |  |"`, `"| --- | --- |"`,
`"| A | B |"` joined by newlines — for **every** value of the first cell's
column span (the span is never consulted), in particular for the span of 2
of `test_chunk_logic.py`; the header text is not replicated into the
second column. -/
theorem c1_table_render (span : Option Nat) :
    parse_textract_layout_to_chunks (c1Blocks span) "test-doc" =
      .ok [⟨"| Header |  |\n| --- | --- |\n| A | B |", ⟨"test-doc", some 1, "table"⟩⟩] := rfl

/-- **C2 counterexample**. A layout block with one leaf (total-leaf count
1 > 0) whose consumed ratio is 0 ≤ 0.5 is nevertheless discarded — no
chunk is emitted, because its remaining text is blank. The claimed
"discarded if and only if ratio > 0.5" fails in the only-if direction. -/
theorem c2_cex :
    parse_textract_layout_to_chunks c2Blocks "d" = .ok [] ∧
    (blockStats c2Blocks [] c2Layout).total = 1 ∧
    (blockStats c2Blocks [] c2Layout).consumedCount = 0 := by
  with_unfolding_all decide

/-- **C3 counterexample**. The word `"w1"` (text `"SECRET"`) is recorded
into the Consumption Set while resolving the table's cells, yet the
fallback path emits a later non-table chunk whose text contains that
word's text: a line with only one of its two leaves consumed is kept
whole, line text included. -/
theorem c3_cex :
    stepA c3Blocks "d" =
      .ok ([⟨"| SECRET |\n| --- |", ⟨"d", some 1, "table"⟩⟩], ["w1"]) ∧
    (blockMapGet c3Blocks "w1").map (fun b => b.text) = some "SECRET" ∧
    parse_textract_layout_to_chunks c3Blocks "d" =
      .ok [⟨"| SECRET |\n| --- |", ⟨"d", some 1, "table"⟩⟩,
           ⟨"SECRET" ++ " other", ⟨"d", some 1, "text_block"⟩⟩] := by
  decide

/-- **C4 counterexample**. The DOCX parser emits chunks in document
order: for a paragraph followed by a table, the text chunk precedes the
table chunk, so the output is not "all table chunks first". -/
theorem c4_cex :
    parse_docx_to_chunks c4DocxBlocks "d" =
      [⟨"P", ⟨"d", none, "text_block"⟩⟩, ⟨"| a |\n| --- |", ⟨"d", none, "table"⟩⟩] ∧
    (parse_docx_to_chunks c4DocxBlocks "d").map (fun c => c.metadata.type) =
      ["text_block", "table"] := by
  decide

/-- **C5 counterexample**. Two nodes share the identifier `"dup"`, yet the
parser neither raises `MalformedGraphError` (no such error exists in the
source) nor any other error: it returns an empty chunk list. -/
theorem c5_cex :
    parse_textract_layout_to_chunks c5DupBlocks "d" = .ok [] := by
  decide

/-- **C8 counterexample**. A LAYOUT_TITLE block yields a chunk whose
metadata type is `"layout_title"` — the lowercased layout label — which
is **not** in the claimed enumeration
`{table, text_block, title, header, section_header, list}`. -/
theorem c8_cex :
    parse_textract_layout_to_chunks c8Blocks "d" =
      .ok [⟨"Title", ⟨"d", some 1, "layout_title"⟩⟩] ∧
    "layout_title" ∉ ["table", "text_block", "title", "header", "section_header", "list"] := by
  with_unfolding_all decide

/-- **C9 counterexample**. A valid graph (every referenced identifier
resolves — the only relationship references nothing) on which the parser
is not total: a TABLE whose relationship list has entries of types other
than CHILD only makes `[… if rel['Type'] == 'CHILD'][0]` raise
`IndexError`. -/
theorem c9_cex :
    parse_textract_layout_to_chunks c9Blocks "d" = .error "IndexError" := by
  decide

/-! ## Helper lemmas -/

theorem le_foldl_max_length (l : List (List String)) (init : Nat) :
    init ≤ l.foldl (fun m r => max m r.length) init := by
  induction l generalizing init with
  | nil => exact Nat.le_refl _
  | cons a l ih => exact Nat.le_trans (Nat.le_max_left _ _) (ih _)

theorem length_le_foldl_max (l : List (List String)) (init : Nat) (r : List String)
    (h : r ∈ l) : r.length ≤ l.foldl (fun m r => max m r.length) init := by
  induction l generalizing init with
  | nil => cases h
  | cons a l ih =>
    rcases List.mem_cons.mp h with rfl | h
    · exact Nat.le_trans (Nat.le_max_right init r.length) (le_foldl_max_length _ _)
    · exact ih _ h

theorem length_le_maxColsOf (grid : List (List String)) (r : List String) (h : r ∈ grid) :
    r.length ≤ maxColsOf grid :=
  length_le_foldl_max grid 0 r h

theorem padTo_length (w : Nat) (r : List String) (h : r.length ≤ w) :
    (padTo w r).length = w := by
  simp only [padTo, List.length_append, List.length_replicate]
  omega

/-- **C6** (confirmed). For every (possibly ragged) grid of cell strings,
every row of the rendered tabular output — header, dash-filler separator,
and body rows alike — has exactly `W = maxColsOf grid` cells; each source
row `r` is rendered as `r ++ List.replicate (W - r.length) ""` (that is
the definition of `padTo`), so exactly `W - w_i` trailing empty cells are
appended to row `i`. -/
theorem c6_padding_law (grid : List (List String)) (row : List String)
    (h : row ∈ docxTableCells grid) : row.length = maxColsOf grid := by
  simp only [docxTableCells, List.mem_cons] at h
  rcases h with rfl | rfl | h
  · apply padTo_length
    cases grid with
    | nil => exact Nat.le_refl 0
    | cons a l => exact length_le_maxColsOf _ _ (List.mem_cons_self a l)
  · exact List.length_replicate _ _
  · rcases List.mem_map.mp h with ⟨r, hr, rfl⟩
    exact padTo_length _ _ (length_le_maxColsOf _ _ (List.drop_subset 1 grid hr))

/-- **C6 witness**: the ragged grid `[["a","b"],["c"]]` has max width 2 and
its rendered body row `["c",""]` has exactly 2 cells. -/
theorem c6_padding_law_witness :
    (["c", ""] : List String).length = maxColsOf [["a", "b"], ["c"]] :=
  c6_padding_law [["a", "b"], ["c"]] ["c", ""] (by decide)

/-- A fallback LINE node with text `s`, vertical position `t` and page 1. -/
def c7Line (i s : String) (t : ℚ) : Block :=
  ⟨i, "LINE", s, none, none, none, none, some 1, some t, none⟩

/-- Two consecutive retained lines on page 1 at positions `t1`, `t2`. -/
def c7Blocks (s1 s2 : String) (t1 t2 : ℚ) : List Block :=
  [c7Line "l1" s1 t1, c7Line "l2" s2 t2]

theorem c7_lineStep_first (s1 : String) (t1 : ℚ) (d : String) :
    lineStep [] d ⟨[], 0, 1, []⟩ (c7Line "l1" s1 t1) = .ok ⟨[s1], t1, 1, []⟩ := by
  simp [lineStep, c7Line, lineSkipped]

theorem interGoNil (acc s : String) : String.intercalate.go acc s [] = acc := rfl

theorem interGoCons (acc s a : String) (as : List String) :
    String.intercalate.go acc s (a :: as) = String.intercalate.go (acc ++ s ++ a) s as := rfl

theorem c7_lineStep_gap (s1 s2 : String) (t1 t2 : ℚ) (d : String)
    (h : |t2 - t1| > 0.05) :
    lineStep [] d ⟨[s1], t1, 1, []⟩ (c7Line "l2" s2 t2) =
      .ok ⟨[s2], t2, 1, [⟨s1, ⟨d, some 1, "text_block"⟩⟩]⟩ := by
  simp [lineStep, c7Line, lineSkipped, flushChunk, h, String.intercalate, interGoNil]

theorem c7_lineStep_nogap (s1 s2 : String) (t1 t2 : ℚ) (d : String)
    (h : ¬ |t2 - t1| > 0.05) :
    lineStep [] d ⟨[s1], t1, 1, []⟩ (c7Line "l2" s2 t2) =
      .ok ⟨[s1, s2], t2, 1, []⟩ := by
  simp [lineStep, c7Line, lineSkipped, flushChunk, h]

/-- **C7** (confirmed). On the fallback path, two consecutive retained
lines (page 1) whose vertical positions differ by more than 0.05 land in
two different chunks, and two lines whose positions differ by 0.04 land in
the same chunk. -/
theorem c7_fallback_break (s1 s2 : String) (t1 t2 : ℚ) :
    (|t2 - t1| > 0.05 →
      parse_textract_layout_to_chunks (c7Blocks s1 s2 t1 t2) "d" =
        .ok [⟨s1, ⟨"d", some 1, "text_block"⟩⟩, ⟨s2, ⟨"d", some 1, "text_block"⟩⟩]) ∧
    (|t2 - t1| = 0.04 →
      parse_textract_layout_to_chunks (c7Blocks s1 s2 t1 t2) "d" =
        .ok [⟨s1 ++ " " ++ s2, ⟨"d", some 1, "text_block"⟩⟩]) := by
  have hA : stepA (c7Blocks s1 s2 t1 t2) "d" = .ok ([], []) := rfl
  have hL : layoutBlocksOf (c7Blocks s1 s2 t1 t2) = [] := rfl
  constructor
  · intro h
    have hF : stepCFold [] "d" ⟨[], 0, 1, []⟩ (c7Blocks s1 s2 t1 t2) =
        .ok ⟨[s2], t2, 1, [⟨s1, ⟨"d", some 1, "text_block"⟩⟩]⟩ := by
      simp only [c7Blocks, stepCFold, c7_lineStep_first s1 t1 "d",
        c7_lineStep_gap s1 s2 t1 t2 "d" h]
    simp only [parse_textract_layout_to_chunks, hA, hL, stepC, hF, stepCFinish,
      flushChunk, String.intercalate, interGoNil, ne_eq, not_true_eq_false, if_false,
      List.nil_append]
    simp
  · intro h
    have hno : ¬ |t2 - t1| > 0.05 := by rw [h]; norm_num
    have hF : stepCFold [] "d" ⟨[], 0, 1, []⟩ (c7Blocks s1 s2 t1 t2) =
        .ok ⟨[s1, s2], t2, 1, []⟩ := by
      simp only [c7Blocks, stepCFold, c7_lineStep_first s1 t1 "d",
        c7_lineStep_nogap s1 s2 t1 t2 "d" hno]
    simp only [parse_textract_layout_to_chunks, hA, hL, stepC, hF, stepCFinish,
      flushChunk, String.intercalate, interGoCons, interGoNil, ne_eq, not_true_eq_false,
      if_false, List.nil_append]
    simp

/-- **C7 witness**: at positions 0 and 0.1 (gap 0.1 > 0.05) the texts land
in two chunks; at positions 0 and 0.04 (gap 0.04) they land in one. -/
theorem c7_fallback_break_witness :
    parse_textract_layout_to_chunks (c7Blocks "a" "b" 0 (1/10 : ℚ)) "d" =
      .ok [⟨"a", ⟨"d", some 1, "text_block"⟩⟩, ⟨"b", ⟨"d", some 1, "text_block"⟩⟩] ∧
    parse_textract_layout_to_chunks (c7Blocks "a" "b" 0 (1/25 : ℚ)) "d" =
      .ok [⟨"a" ++ " " ++ "b", ⟨"d", some 1, "text_block"⟩⟩] :=
  ⟨(c7_fallback_break "a" "b" 0 (1/10 : ℚ)).1 (by rw [abs_of_nonneg] <;> norm_num),
   (c7_fallback_break "a" "b" 0 (1/25 : ℚ)).2 (by rw [abs_of_nonneg] <;> norm_num)⟩

/-- **C2 amended** (corrected). For a layout-labeled block with
total-leaf count > 0, the block emits no chunk **iff** the consumed/total
ratio is strictly greater than 0.5 **or** the remaining joined text strips
to empty. Consequently a ratio > 0.5 always suppresses the block, a block
at ratio exactly 0.5 with non-blank remaining text is retained, and one at
0.51 is dropped; but a block with blank remaining text is dropped at any
ratio, which refutes the claim's "if and only if". -/
theorem c2_suppression (blocks : List Block) (consumed : List String) (d : String)
    (b : Block) (h : 0 < (blockStats blocks consumed b).total) :
    (extractOne blocks consumed d b = none ↔
      ((blockStats blocks consumed b).consumedCount : ℚ) /
          ((blockStats blocks consumed b).total : ℚ) > 0.5 ∨
        pyStrip (String.intercalate " " (blockStats blocks consumed b).parts) = "") := by
  unfold extractOne
  dsimp only
  split_ifs with h1 h2
  · simp only [true_iff]
    exact Or.inl h1.2
  · simp only [reduceCtorEq, false_iff]
    push_neg
    refine ⟨le_of_not_lt (fun hr => h1 ⟨h, hr⟩), h2⟩
  · push_neg at h2
    simp only [true_iff]
    exact Or.inr h2

/-- **C2 witness**: the block of `c2Blocks` has one leaf (total 1 > 0) and
is dropped with ratio 0 because its remaining text strips to empty. -/
theorem c2_suppression_witness :
    extractOne c2Blocks [] "d" c2Layout = none ↔
      ((blockStats c2Blocks [] c2Layout).consumedCount : ℚ) /
          ((blockStats c2Blocks [] c2Layout).total : ℚ) > 0.5 ∨
        pyStrip (String.intercalate " " (blockStats c2Blocks [] c2Layout).parts) = "" :=
  c2_suppression c2Blocks [] "d" c2Layout (by decide)

/-- The leaf ids one line feeds to the word loop of Step B (lines 94–96). -/
def lineWordIds (line : Block) : List String :=
  match line.relationships with
  | none => []
  | some rels =>
    rels.foldl (fun acc rel => if rel.type == "CHILD" then acc ++ rel.ids else acc) []

/-- All leaf ids of a layout block, in traversal order. -/
def blockWordIds (blocks : List Block) (b : Block) : List String :=
  (blockLines blocks b).foldl (fun acc line => acc ++ lineWordIds line) []

/-- The text a single leaf id contributes on the structured path: nothing
when consumed or unresolvable, its block's text otherwise. -/
def partOf (blocks : List Block) (consumed : List String) (w : String) : Option String :=
  if w ∈ consumed then none else (blockMapGet blocks w).map (fun wb => wb.text)

theorem wordTally_parts (blocks : List Block) (consumed : List String) (st : WStats)
    (w : String) :
    (wordTally blocks consumed st w).parts = st.parts ++ (partOf blocks consumed w).toList := by
  unfold wordTally partOf
  split_ifs with h
  · simp
  · cases blockMapGet blocks w <;> simp

theorem widsTally_parts (blocks : List Block) (consumed : List String) (ws : List String)
    (st : WStats) :
    (ws.foldl (wordTally blocks consumed) st).parts =
      st.parts ++ ws.filterMap (partOf blocks consumed) := by
  induction ws generalizing st with
  | nil => simp
  | cons w ws ih =>
    rw [List.foldl_cons, ih, wordTally_parts, List.filterMap_cons]
    cases partOf blocks consumed w <;> simp

theorem idsFold_append (rels : List TRel) (acc : List String) :
    rels.foldl (fun acc rel => if rel.type == "CHILD" then acc ++ rel.ids else acc) acc =
      acc ++ rels.foldl (fun acc rel => if rel.type == "CHILD" then acc ++ rel.ids else acc) [] := by
  induction rels generalizing acc with
  | nil => simp
  | cons rel rels ih =>
    simp only [List.foldl_cons]
    by_cases h : rel.type == "CHILD"
    · rw [if_pos h, if_pos h, ih (acc ++ rel.ids), ih ([] ++ rel.ids)]
      simp
    · rw [if_neg h, if_neg h]
      exact ih acc

theorem relsTally_parts (blocks : List Block) (consumed : List String) (rels : List TRel)
    (st : WStats) :
    (rels.foldl (fun st rel =>
        if rel.type == "CHILD" then rel.ids.foldl (wordTally blocks consumed) st else st)
        st).parts =
      st.parts ++ (rels.foldl (fun acc rel =>
        if rel.type == "CHILD" then acc ++ rel.ids else acc) []).filterMap
          (partOf blocks consumed) := by
  induction rels generalizing st with
  | nil => simp
  | cons rel rels ih =>
    simp only [List.foldl_cons]
    by_cases h : rel.type == "CHILD"
    · rw [if_pos h, if_pos h, ih, widsTally_parts, List.nil_append,
        idsFold_append rels rel.ids, List.filterMap_append, List.append_assoc]
    · rw [if_neg h, if_neg h]
      exact ih st

theorem lineTally_parts (blocks : List Block) (consumed : List String) (st : WStats)
    (line : Block) :
    (lineTally blocks consumed st line).parts =
      st.parts ++ (lineWordIds line).filterMap (partOf blocks consumed) := by
  unfold lineTally lineWordIds
  cases line.relationships with
  | none => simp
  | some rels => exact relsTally_parts blocks consumed rels st

theorem linesIdsFold_append (lines : List Block) (acc : List String) :
    lines.foldl (fun acc line => acc ++ lineWordIds line) acc =
      acc ++ lines.foldl (fun acc line => acc ++ lineWordIds line) [] := by
  induction lines generalizing acc with
  | nil => simp
  | cons l ls ih =>
    simp only [List.foldl_cons]
    rw [ih (acc ++ lineWordIds l), ih ([] ++ lineWordIds l)]
    simp

theorem linesTally_parts (blocks : List Block) (consumed : List String) (lines : List Block)
    (st : WStats) :
    (lines.foldl (lineTally blocks consumed) st).parts =
      st.parts ++ (lines.foldl (fun acc line => acc ++ lineWordIds line) []).filterMap
        (partOf blocks consumed) := by
  induction lines generalizing st with
  | nil => simp
  | cons l ls ih =>
    simp only [List.foldl_cons]
    rw [ih, lineTally_parts, List.nil_append, linesIdsFold_append ls (lineWordIds l),
      List.filterMap_append, List.append_assoc]

/-- **C3 amended** (corrected). On the structured-text path the claim
holds: the text parts a layout block contributes are exactly the texts of
its **unconsumed** resolvable leaf ids, in order — a leaf recorded in the
Consumption Set contributes nothing (`partOf` returns `none` for it). On
the fallback path the claim fails (see the counterexample): a retained
line contributes its whole `Text`, including the text of consumed leaves,
because suppression there is per-line majority, not per-leaf. -/
theorem c3_structured_no_consumed_leak (blocks : List Block) (consumed : List String)
    (b : Block) :
    (blockStats blocks consumed b).parts =
      (blockWordIds blocks b).filterMap (partOf blocks consumed) := by
  unfold blockStats blockWordIds
  simpa using linesTally_parts blocks consumed (blockLines blocks b) ⟨0, 0, []⟩

/-- The chunk a single accumulated line text flushes to (page defaulted
to 1). -/
def soloChunk (d s : String) : Chunk := ⟨s, ⟨d, some 1, "text_block"⟩⟩

theorem stepAFold_no_tables (blocks : List Block) (d : String) (bs : List Block)
    (hb : ∀ b ∈ bs, b.blockType ≠ "TABLE") (acc : List Chunk × List String) :
    stepAFold blocks d acc bs = .ok acc := by
  induction bs generalizing acc with
  | nil => rfl
  | cons b bs ih =>
    have hstep : tableStep blocks d acc b = .ok acc := by
      unfold tableStep
      rw [if_neg]
      simp [hb b (List.mem_cons_self b bs)]
    show (match tableStep blocks d acc b with
          | Except.error e => Except.error e
          | Except.ok acc' => stepAFold blocks d acc' bs) = .ok acc
    rw [hstep]
    exact ih (fun b hb' => hb b (List.mem_cons_of_mem _ hb')) acc

theorem layoutBlocksOf_nil (blocks : List Block)
    (hb : ∀ b ∈ blocks, b.blockType ∉ layoutContentTypes) :
    layoutBlocksOf blocks = [] := by
  unfold layoutBlocksOf
  rw [List.filter_eq_nil_iff]
  intro b hbmem
  simpa using hb b hbmem

theorem stepC_eq_map (blocks : List Block) (consumed : List String) (d : String) :
    stepC blocks consumed d =
      (stepCFold consumed d ⟨[], 0, 1, []⟩ blocks).map (stepCFinish d) := by
  unfold stepC
  cases stepCFold consumed d ⟨[], 0, 1, []⟩ blocks <;> rfl

theorem c10_lineStep_flush (d : String) (b : Block) (x : String) (lt : ℚ) (t : ℚ)
    (acc : List Chunk) (hL : b.blockType = "LINE") (hP : b.page = none)
    (ht : b.top = some t) (hS : lineSkipped [] b = false) :
    lineStep [] d ⟨[x], lt, 1, acc⟩ b = .ok ⟨[b.text], t, 1, acc ++ [soloChunk d x]⟩ := by
  simp [lineStep, hL, hS, ht, hP, flushChunk, soloChunk, String.intercalate, interGoNil]

theorem c10_fold (d : String) (bs : List Block)
    (hb : ∀ b ∈ bs, b.blockType = "LINE" ∧ b.page = none ∧ b.top.isSome ∧
      lineSkipped [] b = false) (x : String) (lt : ℚ) (acc : List Chunk) :
    (stepCFold [] d ⟨[x], lt, 1, acc⟩ bs).map (stepCFinish d) =
      .ok (acc ++ (x :: bs.map (fun b => b.text)).map (soloChunk d)) := by
  induction bs generalizing x lt acc with
  | nil =>
    simp [stepCFold, stepCFinish, flushChunk, soloChunk, String.intercalate, interGoNil,
      Except.map]
  | cons b bs ih =>
    obtain ⟨hL, hP, hT, hS⟩ := hb b (List.mem_cons_self b bs)
    obtain ⟨t, ht⟩ := Option.isSome_iff_exists.mp hT
    show ((match lineStep [] d ⟨[x], lt, 1, acc⟩ b with
           | Except.error e => Except.error e
           | Except.ok st' => stepCFold [] d st' bs).map (stepCFinish d)) = _
    rw [c10_lineStep_flush d b x lt t acc hL hP ht hS]
    rw [ih (fun b hb' => hb b (List.mem_cons_of_mem _ hb')) b.text t (acc ++ [soloChunk d x])]
    simp

/-- **C10** (confirmed). On the fallback path, when no LINE node carries a
page attribute, the page-change test compares the absent page against the
current page (which starts at and stays 1), so it succeeds for every line
after the first: every retained line is flushed as its own single-line
chunk regardless of vertical gap. -/
theorem c10_nopage_single_line_chunks (blocks : List Block) (d : String)
    (hb : ∀ b ∈ blocks, b.blockType = "LINE" ∧ b.page = none ∧ b.top.isSome ∧
      lineSkipped [] b = false) :
    parse_textract_layout_to_chunks blocks d =
      .ok (blocks.map (fun b => soloChunk d b.text)) := by
  have hA : stepA blocks d = .ok ([], []) :=
    stepAFold_no_tables blocks d blocks
      (fun b hbm => by simp [(hb b hbm).1]) ([], [])
  have hLay : layoutBlocksOf blocks = [] := by
    apply layoutBlocksOf_nil
    intro b hbm
    rw [(hb b hbm).1]
    decide
  have hC : stepC blocks [] d = .ok (blocks.map (fun b => soloChunk d b.text)) := by
    rw [stepC_eq_map]
    cases blocks with
    | nil => simp [stepCFold, stepCFinish, Except.map]
    | cons b bs =>
      obtain ⟨hL, hP, hT, hS⟩ := hb b (List.mem_cons_self b bs)
      obtain ⟨t, ht⟩ := Option.isSome_iff_exists.mp hT
      have hstep : lineStep [] d ⟨[], 0, 1, []⟩ b = .ok ⟨[b.text], t, 1, []⟩ := by
        simp [lineStep, hL, hS, ht, hP]
      show ((match lineStep [] d ⟨[], 0, 1, []⟩ b with
             | Except.error e => Except.error e
             | Except.ok st' => stepCFold [] d st' bs).map (stepCFinish d)) = _
      rw [hstep]
      rw [c10_fold d bs (fun b hb' => hb b (List.mem_cons_of_mem _ hb')) b.text t []]
      simp
  simp [parse_textract_layout_to_chunks, hA, hLay, hC]

/-- **C10 witness**: two page-less lines 0.01 apart (well under the 0.05
threshold) still come out as two single-line chunks. -/
theorem c10_nopage_single_line_chunks_witness :
    parse_textract_layout_to_chunks
        [⟨"l1", "LINE", "a", none, none, none, none, none, some 0, none⟩,
         ⟨"l2", "LINE", "b", none, none, none, none, none, some (1/100 : ℚ), none⟩] "d" =
      .ok [⟨"a", ⟨"d", some 1, "text_block"⟩⟩, ⟨"b", ⟨"d", some 1, "text_block"⟩⟩] := by
  have h := c10_nopage_single_line_chunks
    [⟨"l1", "LINE", "a", none, none, none, none, none, some 0, none⟩,
     ⟨"l2", "LINE", "b", none, none, none, none, none, some (1/100 : ℚ), none⟩] "d"
    (by decide)
  simpa [soloChunk] using h

theorem tableStep_types (blocks : List Block) (d : String) (acc : List Chunk × List String)
    (b : Block) (acc' : List Chunk × List String) (h : tableStep blocks d acc b = .ok acc') :
    ∀ c ∈ acc'.1, c ∈ acc.1 ∨ c.metadata.type = "table" := by
  unfold tableStep at h
  split at h
  · split at h
    · injection h with h
      subst h
      exact fun c hc => Or.inl hc
    · split at h
      · cases h
      · split at h
        · cases h
        · split at h
          · injection h with h
            subst h
            exact fun c hc => Or.inl hc
          · injection h with h
            subst h
            intro c hc
            rcases List.mem_append.mp hc with hc | hc
            · exact Or.inl hc
            · simp only [List.mem_singleton] at hc
              subst hc
              exact Or.inr rfl
  · injection h with h
    subst h
    exact fun c hc => Or.inl hc

theorem stepAFold_types (blocks : List Block) (d : String) (bs : List Block)
    (acc res : List Chunk × List String) (h : stepAFold blocks d acc bs = .ok res) :
    ∀ c ∈ res.1, c ∈ acc.1 ∨ c.metadata.type = "table" := by
  induction bs generalizing acc with
  | nil =>
    injection h with h
    subst h
    exact fun c hc => Or.inl hc
  | cons b bs ih =>
    have hm : stepAFold blocks d acc (b :: bs) =
        (match tableStep blocks d acc b with
         | Except.error e => Except.error e
         | Except.ok acc' => stepAFold blocks d acc' bs) := rfl
    rw [hm] at h
    cases htb : tableStep blocks d acc b with
    | error e => rw [htb] at h; cases h
    | ok acc' =>
      rw [htb] at h
      intro c hc
      rcases ih acc' h c hc with h' | h'
      · exact tableStep_types blocks d acc b acc' htb c h'
      · exact Or.inr h'

theorem extractOne_type (blocks : List Block) (consumed : List String) (d : String)
    (b : Block) (c : Chunk) (h : extractOne blocks consumed d b = some c) :
    c.metadata.type = pyLower b.blockType := by
  unfold extractOne at h
  dsimp only at h
  split at h
  · cases h
  · split at h
    · injection h with h
      subst h
      rfl
    · cases h

theorem layout_label_lower (s : String) (h : s ∈ layoutContentTypes) :
    pyLower s ∈
      ["layout_title", "layout_header", "layout_section_header", "layout_text", "layout_list"] := by
  simp only [layoutContentTypes, List.mem_cons, List.not_mem_nil, or_false] at h
  rcases h with rfl | rfl | rfl | rfl | rfl <;> decide

theorem lineStep_types (consumed : List String) (d : String) (st : FState) (b : Block)
    (st' : FState) (h : lineStep consumed d st b = .ok st') :
    ∀ c ∈ st'.chunks, c ∈ st.chunks ∨ c.metadata.type = "text_block" := by
  unfold lineStep at h
  split at h
  · split at h
    · injection h with h
      subst h
      exact fun c hc => Or.inl hc
    · split at h
      · cases h
      · injection h with h
        subst h
        dsimp only
        split
        · intro c hc
          dsimp only at hc
          rcases List.mem_append.mp hc with hc | hc
          · exact Or.inl hc
          · simp only [List.mem_singleton] at hc
            subst hc
            exact Or.inr rfl
        · exact fun c hc => Or.inl hc
  · injection h with h
    subst h
    exact fun c hc => Or.inl hc

theorem stepCFold_types (consumed : List String) (d : String) (bs : List Block)
    (st st' : FState) (h : stepCFold consumed d st bs = .ok st') :
    ∀ c ∈ st'.chunks, c ∈ st.chunks ∨ c.metadata.type = "text_block" := by
  induction bs generalizing st with
  | nil =>
    injection h with h
    subst h
    exact fun c hc => Or.inl hc
  | cons b bs ih =>
    have hm : stepCFold consumed d st (b :: bs) =
        (match lineStep consumed d st b with
         | Except.error e => Except.error e
         | Except.ok st1 => stepCFold consumed d st1 bs) := rfl
    rw [hm] at h
    cases hls : lineStep consumed d st b with
    | error e => rw [hls] at h; cases h
    | ok st1 =>
      rw [hls] at h
      intro c hc
      rcases ih st1 h c hc with h' | h'
      · exact lineStep_types consumed d st b st1 hls c h'
      · exact Or.inr h'

theorem stepC_types (blocks : List Block) (consumed : List String) (d : String)
    (cs : List Chunk) (h : stepC blocks consumed d = .ok cs) :
    ∀ c ∈ cs, c.metadata.type = "text_block" := by
  unfold stepC at h
  cases hf : stepCFold consumed d ⟨[], 0, 1, []⟩ blocks with
  | error e => rw [hf] at h; cases h
  | ok st =>
    rw [hf] at h
    injection h with h
    subst h
    intro c hc
    unfold stepCFinish at hc
    split at hc
    · rcases List.mem_append.mp hc with hc | hc
      · rcases stepCFold_types consumed d blocks _ _ hf c hc with h' | h'
        · cases h'
        · exact h'
      · simp only [List.mem_singleton] at hc
        subst hc
        rfl
    · rcases stepCFold_types consumed d blocks _ _ hf c hc with h' | h'
      · cases h'
      · exact h'

theorem wordStep_fst (blocks : List Block) (f con1 con2 : List String) (w : String)
    (res : List String × List String) (h : wordStep blocks (f, con1) w = .ok res) :
    ∃ con', wordStep blocks (f, con2) w = .ok (res.1, con') := by
  unfold wordStep at h ⊢
  cases hb : blockMapGet blocks w with
  | none => rw [hb] at h; cases h
  | some b =>
    rw [hb] at h
    dsimp only at h ⊢
    by_cases hw : b.blockType == "WORD"
    · rw [if_pos hw] at h
      injection h with h
      subst h
      refine ⟨setAdd con2 w, ?_⟩
      rw [if_pos hw]
    · rw [if_neg hw] at h
      injection h with h
      subst h
      refine ⟨con2, ?_⟩
      rw [if_neg hw]

theorem widsFold_fst (blocks : List Block) (ws : List String) :
    ∀ (f con1 con2 : List String) (res : List String × List String),
      widsFold blocks (f, con1) ws = .ok res →
      ∃ con', widsFold blocks (f, con2) ws = .ok (res.1, con') := by
  induction ws with
  | nil =>
    intro f c1 c2 res h
    injection h with h
    subst h
    exact ⟨c2, rfl⟩
  | cons w ws ih =>
    intro f c1 c2 res h
    have hm1 : widsFold blocks (f, c1) (w :: ws) =
        (match wordStep blocks (f, c1) w with
         | Except.error e => Except.error e
         | Except.ok st' => widsFold blocks st' ws) := rfl
    rw [hm1] at h
    cases hw1 : wordStep blocks (f, c1) w with
    | error e => rw [hw1] at h; cases h
    | ok st1 =>
      rw [hw1] at h
      obtain ⟨cx, hw2⟩ := wordStep_fst blocks f c1 c2 w st1 hw1
      obtain ⟨con', hrec⟩ := ih st1.1 st1.2 cx res h
      refine ⟨con', ?_⟩
      show (match wordStep blocks (f, c2) w with
            | Except.error e => Except.error e
            | Except.ok st' => widsFold blocks st' ws) = Except.ok (res.1, con')
      rw [hw2]
      exact hrec

theorem cellRelsFold_fst (blocks : List Block) (rels : List TRel) :
    ∀ (f con1 con2 : List String) (res : List String × List String),
      cellRelsFold blocks (f, con1) rels = .ok res →
      ∃ con', cellRelsFold blocks (f, con2) rels = .ok (res.1, con') := by
  induction rels with
  | nil =>
    intro f c1 c2 res h
    injection h with h
    subst h
    exact ⟨c2, rfl⟩
  | cons rel rels ih =>
    intro f c1 c2 res h
    have hm1 : cellRelsFold blocks (f, c1) (rel :: rels) =
        (if rel.type == "CHILD" then
          match widsFold blocks (f, c1) rel.ids with
          | Except.error e => Except.error e
          | Except.ok st' => cellRelsFold blocks st' rels
         else cellRelsFold blocks (f, c1) rels) := rfl
    rw [hm1] at h
    by_cases hc : rel.type == "CHILD"
    · rw [if_pos hc] at h
      cases hw1 : widsFold blocks (f, c1) rel.ids with
      | error e => rw [hw1] at h; cases h
      | ok st1 =>
        rw [hw1] at h
        obtain ⟨cx, hw2⟩ := widsFold_fst blocks rel.ids f c1 c2 st1 hw1
        obtain ⟨con', hrec⟩ := ih st1.1 st1.2 cx res h
        refine ⟨con', ?_⟩
        show (if rel.type == "CHILD" then
                match widsFold blocks (f, c2) rel.ids with
                | Except.error e => Except.error e
                | Except.ok st' => cellRelsFold blocks st' rels
              else cellRelsFold blocks (f, c2) rels) = Except.ok (res.1, con')
        rw [if_pos hc, hw2]
        exact hrec
    · rw [if_neg hc] at h
      obtain ⟨con', hrec⟩ := ih f c1 c2 res h
      refine ⟨con', ?_⟩
      show (if rel.type == "CHILD" then
              match widsFold blocks (f, c2) rel.ids with
              | Except.error e => Except.error e
              | Except.ok st' => cellRelsFold blocks st' rels
            else cellRelsFold blocks (f, c2) rels) = Except.ok (res.1, con')
      rw [if_neg hc]
      exact hrec

theorem cellStep_fst (blocks : List Block) (cd : List CellData) (con1 con2 : List String)
    (cid : String) (res : List CellData × List String)
    (h : cellStep blocks (cd, con1) cid = .ok res) :
    ∃ con', cellStep blocks (cd, con2) cid = .ok (res.1, con') := by
  unfold cellStep at h ⊢
  cases hb : blockMapGet blocks cid with
  | none => rw [hb] at h; cases h
  | some cell =>
    rw [hb] at h
    dsimp only at h ⊢
    cases hr : cell.relationships with
    | none =>
      rw [hr] at h
      dsimp only at h ⊢
      cases hri : cell.rowIndex with
      | none => rw [hri] at h; cases h
      | some r =>
        cases hci : cell.columnIndex with
        | none => rw [hri, hci] at h; cases h
        | some c =>
          rw [hri, hci] at h
          dsimp only at h ⊢
          injection h with h
          subst h
          exact ⟨con2, rfl⟩
    | some rels =>
      rw [hr] at h
      dsimp only at h ⊢
      cases hcf : cellRelsFold blocks ([], con1) rels with
      | error e => rw [hcf] at h; cases h
      | ok p =>
        rw [hcf] at h
        obtain ⟨ws, conx⟩ := p
        obtain ⟨cy, hcf2⟩ := cellRelsFold_fst blocks rels [] con1 con2 (ws, conx) hcf
        dsimp only at h
        cases hri : cell.rowIndex with
        | none => rw [hri] at h; cases h
        | some r =>
          cases hci : cell.columnIndex with
          | none => rw [hri, hci] at h; cases h
          | some c =>
            rw [hri, hci] at h
            dsimp only at h
            injection h with h
            subst h
            refine ⟨cy, ?_⟩
            rw [hcf2]

theorem cellsFold_fst (blocks : List Block) (cids : List String) :
    ∀ (cd : List CellData) (con1 con2 : List String) (res : List CellData × List String),
      cellsFold blocks (cd, con1) cids = .ok res →
      ∃ con', cellsFold blocks (cd, con2) cids = .ok (res.1, con') := by
  induction cids with
  | nil =>
    intro cd c1 c2 res h
    injection h with h
    subst h
    exact ⟨c2, rfl⟩
  | cons cid cids ih =>
    intro cd c1 c2 res h
    have hm1 : cellsFold blocks (cd, c1) (cid :: cids) =
        (match cellStep blocks (cd, c1) cid with
         | Except.error e => Except.error e
         | Except.ok st' => cellsFold blocks st' cids) := rfl
    rw [hm1] at h
    cases hc1 : cellStep blocks (cd, c1) cid with
    | error e => rw [hc1] at h; cases h
    | ok st1 =>
      rw [hc1] at h
      obtain ⟨cx, hc2⟩ := cellStep_fst blocks cd c1 c2 cid st1 hc1
      obtain ⟨con', hrec⟩ := ih st1.1 st1.2 cx res h
      refine ⟨con', ?_⟩
      show (match cellStep blocks (cd, c2) cid with
            | Except.error e => Except.error e
            | Except.ok st' => cellsFold blocks st' cids) = Except.ok (res.1, con')
      rw [hc2]
      exact hrec

/-- The chunk a single TABLE block contributes (`chunk.py` lines 30-71),
as a function of the block alone: the cell data Step A collects for a
table is independent of the Consumption Set threaded into it (the word
loop appends texts unconditionally and only **adds** to the set), so each
table chunk can be computed with an empty initial set. `none` for
non-tables, relation-less tables and zero-cell tables; a resolution
failure also yields `none` here, but it aborts `stepA` itself and so
cannot arise in a successful run. -/
def tableChunkOf (blocks : List Block) (d : String) (b : Block) : Option Chunk :=
  if b.blockType == "TABLE" then
    match b.relationships with
    | none => none
    | some rels =>
      match (rels.filter (fun r => r.type == "CHILD")).map (fun r => r.ids) with
      | [] => none
      | cellIds :: _ =>
        match cellsFold blocks ([], []) cellIds with
        | .error _ => none
        | .ok (cellsData, _) =>
          if cellsData.isEmpty then none
          else
            some ⟨tableMD (fillGrid (emptyGrid (maxRowOf cellsData) (maxColOf cellsData))
                    cellsData) (maxColOf cellsData),
                  ⟨d, some (b.page.getD 1), "table"⟩⟩
  else none

theorem tableChunkOf_type (blocks : List Block) (d : String) (b : Block) (c : Chunk)
    (h : tableChunkOf blocks d b = some c) : c.metadata.type = "table" := by
  unfold tableChunkOf at h
  split at h
  · split at h
    · cases h
    · split at h
      · cases h
      · split at h
        · cases h
        · split at h
          · cases h
          · injection h with h
            subst h
            rfl
  · cases h

theorem tableStep_chunks (blocks : List Block) (d : String) (acc : List Chunk × List String)
    (b : Block) (acc' : List Chunk × List String) (h : tableStep blocks d acc b = .ok acc') :
    acc'.1 = acc.1 ++ (tableChunkOf blocks d b).toList := by
  unfold tableStep at h
  unfold tableChunkOf
  by_cases hT : b.blockType == "TABLE"
  · rw [if_pos hT] at h
    rw [if_pos hT]
    cases hr : b.relationships with
    | none =>
      rw [hr] at h
      dsimp only at h
      injection h with h
      subst h
      simp
    | some rels =>
      rw [hr] at h
      dsimp only at h ⊢
      cases hfl : (rels.filter (fun r => r.type == "CHILD")).map (fun r => r.ids) with
      | nil => rw [hfl] at h; cases h
      | cons cellIds rest =>
        rw [hfl] at h
        dsimp only at h ⊢
        cases hcf : cellsFold blocks ([], acc.2) cellIds with
        | error e => rw [hcf] at h; cases h
        | ok p =>
          rw [hcf] at h
          obtain ⟨cd, con⟩ := p
          obtain ⟨con0, hcf0⟩ := cellsFold_fst blocks cellIds [] acc.2 [] (cd, con) hcf
          rw [hcf0]
          dsimp only at h ⊢
          by_cases he : cd.isEmpty
          · rw [if_pos he] at h
            rw [if_pos he]
            injection h with h
            subst h
            simp
          · rw [if_neg he] at h
            rw [if_neg he]
            injection h with h
            subst h
            simp
  · rw [if_neg hT] at h
    rw [if_neg hT]
    injection h with h
    subst h
    simp

theorem stepAFold_chunks (blocks : List Block) (d : String) (bs : List Block)
    (acc res : List Chunk × List String) (h : stepAFold blocks d acc bs = .ok res) :
    res.1 = acc.1 ++ bs.filterMap (tableChunkOf blocks d) := by
  induction bs generalizing acc with
  | nil =>
    injection h with h
    subst h
    simp
  | cons b bs ih =>
    have hm : stepAFold blocks d acc (b :: bs) =
        (match tableStep blocks d acc b with
         | Except.error e => Except.error e
         | Except.ok acc' => stepAFold blocks d acc' bs) := rfl
    rw [hm] at h
    cases htb : tableStep blocks d acc b with
    | error e => rw [htb] at h; cases h
    | ok acc1 =>
      rw [htb] at h
      rw [ih acc1 h, tableStep_chunks blocks d acc b acc1 htb, List.filterMap_cons]
      cases tableChunkOf blocks d b <;> simp

/-- **C4 amended** (corrected). For every input the **Textract** parser's
output is all table chunks followed by all text chunks, with both
intra-group orders pinned: the table part equals
`blocks.filterMap (tableChunkOf blocks d)` — exactly one chunk per
chunk-yielding TABLE node, in the order those nodes appear in the source
collection — and the text part is exactly the output of whichever
text-extraction path ran, in its own discovery order: the source-order
`filterMap` over the layout blocks on the structured path, or the
fallback segmenter's emission sequence. Hence no text chunk ever precedes
a table chunk there. (The DOCX parser interleaves tables and text in
document order — see the counterexample.) -/
theorem c4_tables_first (blocks : List Block) (d : String) (cs : List Chunk)
    (h : parse_textract_layout_to_chunks blocks d = .ok cs) :
    ∃ consumed textChunks,
      stepA blocks d = .ok (blocks.filterMap (tableChunkOf blocks d), consumed) ∧
      (if layoutBlocksOf blocks ≠ [] then
          textChunks = (layoutBlocksOf blocks).filterMap (extractOne blocks consumed d)
        else stepC blocks consumed d = .ok textChunks) ∧
      cs = blocks.filterMap (tableChunkOf blocks d) ++ textChunks ∧
      (∀ c ∈ blocks.filterMap (tableChunkOf blocks d), c.metadata.type = "table") ∧
      (∀ c ∈ textChunks, c.metadata.type ≠ "table") := by
  unfold parse_textract_layout_to_chunks at h
  cases hA : stepA blocks d with
  | error e => rw [hA] at h; cases h
  | ok p =>
    obtain ⟨tcs, consumed⟩ := p
    rw [hA] at h
    dsimp only at h
    have htcs : tcs = blocks.filterMap (tableChunkOf blocks d) := by
      simpa using stepAFold_chunks blocks d blocks ([], []) (tcs, consumed) hA
    subst htcs
    have htype : ∀ c ∈ blocks.filterMap (tableChunkOf blocks d), c.metadata.type = "table" := by
      intro c hc
      obtain ⟨b, _, hbe⟩ := List.mem_filterMap.mp hc
      exact tableChunkOf_type blocks d b c hbe
    by_cases hlay : layoutBlocksOf blocks ≠ []
    · rw [if_pos hlay] at h
      injection h with h
      subst h
      refine ⟨consumed, stepB blocks consumed d, rfl, ?_, rfl, htype, ?_⟩
      · rw [if_pos hlay]
        rfl
      · intro c hc
        obtain ⟨b, hbmem, hbe⟩ := List.mem_filterMap.mp hc
        rw [extractOne_type blocks consumed d b c hbe]
        have hmem : b.blockType ∈ layoutContentTypes := by
          have := (List.mem_filter.mp hbmem).2
          simpa using this
        have hlow := layout_label_lower _ hmem
        intro hEq
        rw [hEq] at hlow
        simp at hlow
    · rw [if_neg hlay] at h
      cases hc : stepC blocks consumed d with
      | error e => rw [hc] at h; cases h
      | ok xcs =>
        rw [hc] at h
        injection h with h
        subst h
        refine ⟨consumed, xcs, rfl, ?_, rfl, htype, ?_⟩
        · rw [if_neg hlay]
          exact hc
        · intro c hcm
          rw [stepC_types blocks consumed d xcs hc c hcm]
          decide

/-- The one-line collection used to witness the assembler theorem. -/
def c4LineBlocks : List Block :=
  [⟨"l1", "LINE", "hi", none, none, none, none, none, some 0, none⟩]

/-- **C4 witness**: a single page-less line parses to one text chunk, the
table part is the (empty) source-order `filterMap`, and the text part is
the fallback segmenter's own output. -/
theorem c4_tables_first_witness :
    ∃ consumed textChunks,
      stepA c4LineBlocks "d" =
        .ok (c4LineBlocks.filterMap (tableChunkOf c4LineBlocks "d"), consumed) ∧
      (if layoutBlocksOf c4LineBlocks ≠ [] then
          textChunks = (layoutBlocksOf c4LineBlocks).filterMap
            (extractOne c4LineBlocks consumed "d")
        else stepC c4LineBlocks consumed "d" = .ok textChunks) ∧
      [(⟨"hi", ⟨"d", some 1, "text_block"⟩⟩ : Chunk)] =
        c4LineBlocks.filterMap (tableChunkOf c4LineBlocks "d") ++ textChunks ∧
      (∀ c ∈ c4LineBlocks.filterMap (tableChunkOf c4LineBlocks "d"),
        c.metadata.type = "table") ∧
      (∀ c ∈ textChunks, c.metadata.type ≠ "table") :=
  c4_tables_first c4LineBlocks "d" [⟨"hi", ⟨"d", some 1, "text_block"⟩⟩]
    (by with_unfolding_all decide)

/-- The chunk metadata types the Textract parser can actually emit. -/
def allowedChunkTypes : List String :=
  ["table", "text_block", "layout_title", "layout_header", "layout_section_header",
   "layout_text", "layout_list"]

/-- **C8 amended** (corrected). Every chunk the Structured-Text Extractor
emits has metadata type equal to the lowercased layout label of its source
block — but those lowercased labels are `layout_title`, `layout_header`,
`layout_section_header`, `layout_text`, `layout_list`, not the claimed
`title`/`header`/…; every chunk of the parser has its type in
`{table, text_block} ∪ {lowercased layout labels}`. -/
theorem c8_chunk_types :
    (∀ (blocks : List Block) (consumed : List String) (d : String) (b : Block) (c : Chunk),
        extractOne blocks consumed d b = some c → c.metadata.type = pyLower b.blockType) ∧
    (∀ (blocks : List Block) (d : String) (cs : List Chunk),
        parse_textract_layout_to_chunks blocks d = .ok cs →
          ∀ c ∈ cs, c.metadata.type ∈ allowedChunkTypes) := by
  refine ⟨fun blocks consumed d b c h => extractOne_type blocks consumed d b c h, ?_⟩
  intro blocks d cs h c hc
  unfold parse_textract_layout_to_chunks at h
  cases hA : stepA blocks d with
  | error e => rw [hA] at h; cases h
  | ok p =>
    obtain ⟨tcs, consumed⟩ := p
    rw [hA] at h
    dsimp only at h
    have htcs : ∀ c ∈ tcs, c.metadata.type ∈ allowedChunkTypes := by
      intro c hct
      rcases stepAFold_types blocks d blocks ([], []) (tcs, consumed) hA c hct with h' | h'
      · cases h'
      · rw [h']; decide
    split at h
    · injection h with h
      subst h
      rcases List.mem_append.mp hc with hc | hc
      · exact htcs c hc
      · obtain ⟨b, hbmem, hbe⟩ := List.mem_filterMap.mp hc
        rw [extractOne_type blocks consumed d b c hbe]
        have hmem : b.blockType ∈ layoutContentTypes := by
          have := (List.mem_filter.mp hbmem).2
          simpa using this
        have hlow := layout_label_lower _ hmem
        simp only [List.mem_cons, List.not_mem_nil, or_false] at hlow
        simp only [allowedChunkTypes, List.mem_cons, List.not_mem_nil, or_false]
        tauto
    · cases hcs : stepC blocks consumed d with
      | error e => rw [hcs] at h; cases h
      | ok xcs =>
        rw [hcs] at h
        injection h with h
        subst h
        rcases List.mem_append.mp hc with hc | hc
        · exact htcs c hc
        · rw [stepC_types blocks consumed d xcs hcs c hc]
          decide

/-- **C8 witness**: the LAYOUT_TITLE block of `c8Blocks` yields a chunk of
type `"layout_title"` = lowercased label, which is in the emitted-type
enumeration. -/
theorem c8_chunk_types_witness :
    (⟨"Title", ⟨"d", some 1, "layout_title"⟩⟩ : Chunk).metadata.type =
        pyLower c8Layout.blockType ∧
      (⟨"Title", ⟨"d", some 1, "layout_title"⟩⟩ : Chunk).metadata.type ∈ allowedChunkTypes :=
  ⟨c8_chunk_types.1 c8Blocks [] "d" c8Layout ⟨"Title", ⟨"d", some 1, "layout_title"⟩⟩
      (by with_unfolding_all decide),
   c8_chunk_types.2 c8Blocks "d" [⟨"Title", ⟨"d", some 1, "layout_title"⟩⟩]
      (by with_unfolding_all decide) ⟨"Title", ⟨"d", some 1, "layout_title"⟩⟩ (by decide)⟩

/-- **C5 amended** (corrected). Building the Block Index never fails and no
`MalformedGraphError` exists in the source: duplicate identifiers are
silently overwritten, last write wins — a table cell resolving a
twice-defined word id renders the **later** node's text — and a
relationship referencing an absent identifier raises a plain `KeyError`,
and only on the table path (cell and cell-word resolution). -/
theorem c5_index_behavior :
    parse_textract_layout_to_chunks c5DupTableBlocks "d" =
      .ok [⟨"| NEW |\n| --- |", ⟨"d", some 1, "table"⟩⟩] ∧
    blockMapGet c5DupTableBlocks "w" =
      some ⟨"w", "WORD", "NEW", none, none, none, none, none, none, none⟩ ∧
    parse_textract_layout_to_chunks c5DanglingBlocks "d" = .error "KeyError" := by
  with_unfolding_all decide

theorem getLast?_mem_of_eq {α : Type} (l : List α) (a : α) (h : l.getLast? = some a) :
    a ∈ l := by
  induction l with
  | nil => cases h
  | cons x xs ih =>
    rw [List.getLast?_cons] at h
    cases hx : xs.getLast? with
    | none =>
      rw [hx] at h
      simp only [Option.getD_none] at h
      injection h with h
      subst h
      exact List.mem_cons_self _ _
    | some b =>
      rw [hx] at h
      simp only [Option.getD_some] at h
      injection h with h
      subst h
      exact List.mem_cons_of_mem _ (ih hx)

theorem blockMapGet_mem (blocks : List Block) (i : String) (b : Block)
    (h : blockMapGet blocks i = some b) : b ∈ blocks :=
  (List.mem_filter.mp (getLast?_mem_of_eq _ _ h)).1

/-- Whether the block a cell id resolves to (if any) carries both 1-based
grid indices; used as a well-formedness premise for totality (Textract
emits `RowIndex`/`ColumnIndex` ≥ 1 on every CELL). -/
def cellIndexed (blocks : List Block) (cid : String) : Bool :=
  match blockMapGet blocks cid with
  | some cb => decide (1 ≤ cb.rowIndex.getD 0) && decide (1 ≤ cb.columnIndex.getD 0)
  | none => true

/-- Valid graph: every identifier referenced by any relationship of any
block resolves in the Block Index. -/
def ValidGraph (blocks : List Block) : Prop :=
  ∀ b ∈ blocks, ∀ rel ∈ b.relationships.getD [], ∀ i ∈ rel.ids,
    (blockMapGet blocks i).isSome = true

instance (blocks : List Block) : Decidable (ValidGraph blocks) := by
  unfold ValidGraph
  infer_instance

theorem widsFold_ok (blocks : List Block) (ws : List String)
    (h : ∀ w ∈ ws, (blockMapGet blocks w).isSome = true) (st : List String × List String) :
    ∃ st', widsFold blocks st ws = .ok st' := by
  induction ws generalizing st with
  | nil => exact ⟨st, rfl⟩
  | cons w ws ih =>
    obtain ⟨b, hb⟩ := Option.isSome_iff_exists.mp (h w (List.mem_cons_self w ws))
    have hstep : ∃ st1, wordStep blocks st w = .ok st1 := by
      unfold wordStep
      rw [hb]
      by_cases hbt : b.blockType == "WORD" <;> simp [hbt]
    obtain ⟨st1, h1⟩ := hstep
    obtain ⟨st', h'⟩ := ih (fun w hw => h w (List.mem_cons_of_mem _ hw)) st1
    refine ⟨st', ?_⟩
    show (match wordStep blocks st w with
          | Except.error e => Except.error e
          | Except.ok st1 => widsFold blocks st1 ws) = _
    rw [h1]
    exact h'

theorem cellRelsFold_ok (blocks : List Block) (rels : List TRel)
    (h : ∀ rel ∈ rels, ∀ w ∈ rel.ids, (blockMapGet blocks w).isSome = true)
    (st : List String × List String) :
    ∃ st', cellRelsFold blocks st rels = .ok st' := by
  induction rels generalizing st with
  | nil => exact ⟨st, rfl⟩
  | cons rel rels ih =>
    have hm : cellRelsFold blocks st (rel :: rels) =
        (if rel.type == "CHILD" then
          match widsFold blocks st rel.ids with
          | Except.error e => Except.error e
          | Except.ok st' => cellRelsFold blocks st' rels
         else cellRelsFold blocks st rels) := rfl
    rw [hm]
    by_cases hc : rel.type == "CHILD"
    · rw [if_pos hc]
      obtain ⟨st1, h1⟩ := widsFold_ok blocks rel.ids
        (h rel (List.mem_cons_self rel rels)) st
      rw [h1]
      exact ih (fun rel hr => h rel (List.mem_cons_of_mem _ hr)) st1
    · rw [if_neg hc]
      exact ih (fun rel hr => h rel (List.mem_cons_of_mem _ hr)) st

theorem cellStep_ok (blocks : List Block) (hvg : ValidGraph blocks)
    (st : List CellData × List String) (cid : String)
    (hres : (blockMapGet blocks cid).isSome = true)
    (hidx : cellIndexed blocks cid = true) :
    ∃ st', cellStep blocks st cid = .ok st' := by
  obtain ⟨cell, hcell⟩ := Option.isSome_iff_exists.mp hres
  have hmem := blockMapGet_mem blocks cid cell hcell
  unfold cellStep
  rw [hcell]
  dsimp only
  have hrels : ∃ ws2, (match cell.relationships with
      | none => Except.ok (([] : List String), st.2)
      | some rels => cellRelsFold blocks ([], st.2) rels) = .ok ws2 := by
    cases hr : cell.relationships with
    | none => exact ⟨([], st.2), rfl⟩
    | some rels =>
      apply cellRelsFold_ok
      intro rel hrel w hw
      exact hvg cell hmem rel (by rw [hr]; exact hrel) w hw
  obtain ⟨⟨ws, con⟩, hws⟩ := hrels
  rw [hws]
  dsimp only
  unfold cellIndexed at hidx
  rw [hcell] at hidx
  simp only [Bool.and_eq_true, decide_eq_true_eq] at hidx
  cases hri : cell.rowIndex with
  | none => rw [hri] at hidx; simp at hidx
  | some r =>
    cases hci : cell.columnIndex with
    | none => rw [hci] at hidx; simp at hidx
    | some c => exact ⟨_, rfl⟩


theorem cellsFold_ok (blocks : List Block) (hvg : ValidGraph blocks) (cids : List String)
    (hres : ∀ cid ∈ cids, (blockMapGet blocks cid).isSome = true)
    (hidx : ∀ cid ∈ cids, cellIndexed blocks cid = true)
    (st : List CellData × List String) :
    ∃ st', cellsFold blocks st cids = .ok st' := by
  induction cids generalizing st with
  | nil => exact ⟨st, rfl⟩
  | cons cid cids ih =>
    obtain ⟨st1, h1⟩ := cellStep_ok blocks hvg st cid
      (hres cid (List.mem_cons_self cid cids)) (hidx cid (List.mem_cons_self cid cids))
    refine ?_
    show ∃ st', (match cellStep blocks st cid with
        | Except.error e => Except.error e
        | Except.ok st1 => cellsFold blocks st1 cids) = .ok st'
    rw [h1]
    exact ih (fun cid hc => hres cid (List.mem_cons_of_mem _ hc))
      (fun cid hc => hidx cid (List.mem_cons_of_mem _ hc)) st1

/-- Every TABLE block that has a relationship list has at least one CHILD
entry in it (this rules out the `[...][0]` IndexError of line 33). -/
def TablesHaveChild (blocks : List Block) : Prop :=
  ∀ b ∈ blocks, b.blockType = "TABLE" → b.relationships ≠ none →
    ((b.relationships.getD []).filter (fun r => r.type == "CHILD")) ≠ []

/-- Every id referenced by a CHILD relationship of a TABLE resolves to a
block carrying 1-based grid indices (as Textract CELLs always do). -/
def TableCellsIndexed (blocks : List Block) : Prop :=
  ∀ b ∈ blocks, b.blockType = "TABLE" → ∀ rel ∈ b.relationships.getD [],
    rel.type = "CHILD" → ∀ cid ∈ rel.ids, cellIndexed blocks cid = true

/-- Every LINE block carries a geometric vertical position. -/
def LinesHaveTop (blocks : List Block) : Prop :=
  ∀ b ∈ blocks, b.blockType = "LINE" → b.top.isSome = true

instance (blocks : List Block) : Decidable (TablesHaveChild blocks) := by
  unfold TablesHaveChild
  infer_instance

instance (blocks : List Block) : Decidable (TableCellsIndexed blocks) := by
  unfold TableCellsIndexed
  infer_instance

instance (blocks : List Block) : Decidable (LinesHaveTop blocks) := by
  unfold LinesHaveTop
  infer_instance

theorem tableStep_ok (blocks : List Block) (d : String) (hvg : ValidGraph blocks)
    (hch : TablesHaveChild blocks) (hti : TableCellsIndexed blocks)
    (acc : List Chunk × List String) (b : Block) (hb : b ∈ blocks) :
    ∃ acc', tableStep blocks d acc b = .ok acc' := by
  unfold tableStep
  by_cases hT : b.blockType == "TABLE"
  · rw [if_pos hT]
    cases hr : b.relationships with
    | none => exact ⟨acc, rfl⟩
    | some rels =>
      dsimp only
      have hTeq : b.blockType = "TABLE" := by simpa using hT
      have hfilter : rels.filter (fun r => r.type == "CHILD") ≠ [] := by
        have h2 := hch b hb hTeq (by rw [hr]; simp)
        rw [hr] at h2
        simpa using h2
      cases hflt : (rels.filter (fun r => r.type == "CHILD")).map (fun r => r.ids) with
      | nil =>
        exact absurd (List.map_eq_nil_iff.mp hflt) hfilter
      | cons cellIds rest =>
        obtain ⟨relFirst, relRest, hl, hfid⟩ :
            ∃ rf rr, rels.filter (fun r => r.type == "CHILD") = rf :: rr ∧ rf.ids = cellIds := by
          cases hl : rels.filter (fun r => r.type == "CHILD") with
          | nil => rw [hl] at hflt; cases hflt
          | cons rf rr =>
            rw [hl] at hflt
            simp only [List.map_cons] at hflt
            injection hflt with h1 h2
            exact ⟨rf, rr, rfl, h1⟩
        have hrfmemf : relFirst ∈ rels.filter (fun r => r.type == "CHILD") := by
          rw [hl]
          exact List.mem_cons_self _ _
        have hrfmem : relFirst ∈ rels := List.mem_of_mem_filter hrfmemf
        have hrfchild : relFirst.type = "CHILD" := by
          have := List.of_mem_filter hrfmemf
          simpa using this
        have hres : ∀ cid ∈ cellIds, (blockMapGet blocks cid).isSome = true := by
          intro cid hcid
          exact hvg b hb relFirst (by rw [hr]; exact hrfmem) cid (hfid ▸ hcid)
        have hidx : ∀ cid ∈ cellIds, cellIndexed blocks cid = true := by
          intro cid hcid
          exact hti b hb hTeq relFirst (by rw [hr]; exact hrfmem) hrfchild cid (hfid ▸ hcid)
        obtain ⟨⟨cellsData, consumed⟩, hcf⟩ := cellsFold_ok blocks hvg cellIds hres hidx ([], acc.2)
        dsimp only
        rw [hcf]
        dsimp only
        split <;> exact ⟨_, rfl⟩
  · rw [if_neg hT]
    exact ⟨acc, rfl⟩

theorem stepAFold_ok (blocks : List Block) (d : String) (hvg : ValidGraph blocks)
    (hch : TablesHaveChild blocks) (hti : TableCellsIndexed blocks) (bs : List Block)
    (hbs : ∀ b ∈ bs, b ∈ blocks) (acc : List Chunk × List String) :
    ∃ res, stepAFold blocks d acc bs = .ok res := by
  induction bs generalizing acc with
  | nil => exact ⟨acc, rfl⟩
  | cons b bs ih =>
    obtain ⟨acc1, h1⟩ := tableStep_ok blocks d hvg hch hti acc b
      (hbs b (List.mem_cons_self b bs))
    show ∃ res, (match tableStep blocks d acc b with
        | Except.error e => Except.error e
        | Except.ok acc' => stepAFold blocks d acc' bs) = .ok res
    rw [h1]
    exact ih (fun b hm => hbs b (List.mem_cons_of_mem _ hm)) acc1

theorem lineStep_ok (consumed : List String) (d : String) (st : FState) (b : Block)
    (htop : b.blockType = "LINE" → b.top.isSome = true) :
    ∃ st', lineStep consumed d st b = .ok st' := by
  unfold lineStep
  by_cases hL : b.blockType == "LINE"
  · rw [if_pos hL]
    by_cases hS : lineSkipped consumed b
    · simp [hS]
    · simp only [hS, Bool.false_eq_true, if_false, ite_false]
      obtain ⟨t, ht⟩ := Option.isSome_iff_exists.mp (htop (by simpa using hL))
      rw [ht]
      dsimp only
      exact ⟨_, rfl⟩
  · rw [if_neg hL]
    exact ⟨st, rfl⟩

theorem stepCFold_ok (consumed : List String) (d : String) (bs : List Block)
    (htop : ∀ b ∈ bs, b.blockType = "LINE" → b.top.isSome = true) (st : FState) :
    ∃ st', stepCFold consumed d st bs = .ok st' := by
  induction bs generalizing st with
  | nil => exact ⟨st, rfl⟩
  | cons b bs ih =>
    obtain ⟨st1, h1⟩ := lineStep_ok consumed d st b (htop b (List.mem_cons_self b bs))
    show ∃ st', (match lineStep consumed d st b with
        | Except.error e => Except.error e
        | Except.ok st1 => stepCFold consumed d st1 bs) = .ok st'
    rw [h1]
    exact ih (fun b hm => htop b (List.mem_cons_of_mem _ hm)) st1

/-- **C9 amended** (corrected). The parser is total — it returns a chunk
list and raises nothing — for every valid graph (all relationship ids
resolve) **provided additionally** that every TABLE node carrying a
relationship list has at least one CHILD entry (otherwise the source's
`[… if rel['Type'] == 'CHILD'][0]` raises `IndexError`, as the
counterexample shows), that every block referenced as a table cell
carries 1-based row/column indices, and that every LINE block carries a
vertical position. -/
theorem c9_total (blocks : List Block) (d : String) (hvg : ValidGraph blocks)
    (hch : TablesHaveChild blocks) (hti : TableCellsIndexed blocks)
    (hlt : LinesHaveTop blocks) :
    ∃ cs, parse_textract_layout_to_chunks blocks d = .ok cs := by
  obtain ⟨⟨tcs, consumed⟩, hA⟩ :=
    stepAFold_ok blocks d hvg hch hti blocks (fun b hb => hb) ([], [])
  unfold parse_textract_layout_to_chunks stepA
  rw [hA]
  dsimp only
  split
  · exact ⟨_, rfl⟩
  · obtain ⟨stF, hF⟩ := stepCFold_ok consumed d blocks (fun b hb hL => hlt b hb hL) ⟨[], 0, 1, []⟩
    unfold stepC
    rw [hF]
    exact ⟨_, rfl⟩

/-- **C9 witness**: a well-formed one-table graph (CHILD relationship
present, indexed cell, resolvable ids) parses without error. -/
theorem c9_total_witness :
    ∃ cs, parse_textract_layout_to_chunks c3Blocks "d" = .ok cs :=
  c9_total c3Blocks "d" (by decide) (by decide) (by decide) (by decide)
